import Mathlib

/-!
Shallow embedding of `src/import.rs` from the `three-d-gltf-import` crate
(compiled for a non-wasm target, so the `file:` scheme is live).

Pure structure is translated directly; the external collaborators
(`base64::decode`, `image::guess_format`, `image::load_from_memory_with_format`,
`three_d::Loader`) are opaque parameters, bundled in `Ext` and in per-phase
bundle functions.  Machine bytes are modelled as `Nat`s in a `List`.
-/

namespace GltfImport

/-- A byte sequence (`Vec<u8>` / `&[u8]`). -/
abbrev Bytes := List Nat

/-- The set of URI schemes the importer supports (`enum Scheme<'a>` in the
source; the `File` variant is present because we model the non-wasm build). -/
inductive Scheme where
  | data (mediaType : Option String) (payload : String)
  | file (path : String)
  | relative
  | external (url : String)
  | unsupported
deriving DecidableEq, Repr

/-- Rust `str::split(sep)` for a nonempty separator, over char lists:
leftmost non-overlapping occurrences delimit the segments, an input with no
occurrence is one segment, and a trailing occurrence yields a final empty
segment.  The fuel argument (one unit per examined char) only makes the
recursion structural; `splitSeq` supplies enough fuel that the exhaustion
branch is unreachable whenever `sep` is nonempty. -/
def splitFuel (sep : List Char) : Nat → List Char → List Char → List (List Char)
  | _, [], acc => [acc.reverse]
  | 0, s, acc => [acc.reverse ++ s]
  | fuel + 1, c :: rest, acc =>
    if sep.isPrefixOf (c :: rest) then
      acc.reverse :: splitFuel sep fuel ((c :: rest).drop sep.length) []
    else
      splitFuel sep fuel rest (c :: acc)

/-- Rust `str::split(sep)` entry point (see `splitFuel`). -/
def splitSeq (sep s : List Char) : List (List Char) :=
  splitFuel sep s.length s []

/-- `Scheme::parse` from the source: the `contains(":")` test, then the
`data:` / `file://` / `file:` / `http:`-`https:` dispatch.  Rust's byte
oriented `str` operations are modelled char-for-byte over `String.data`
(the tested prefixes are ASCII, so char and byte offsets agree):
`starts_with` is `List.isPrefixOf`, `&uri[p.len()..]` is `List.drop`,
and `split(";base64,")` is `splitSeq`, with `nth(0)` / `nth(1)` the first
two segments. -/
def Scheme.parse (uri : String) : Scheme :=
  if uri.data.contains ':' then
    if "data:".data.isPrefixOf uri.data then
      match splitSeq (";base64,".data) (uri.data.drop "data:".length) with
      | m0 :: m1 :: _ => Scheme.data (some ⟨m0⟩) ⟨m1⟩
      | m0 :: [] => Scheme.data none ⟨m0⟩
      | [] => Scheme.unsupported
    else if "file://".data.isPrefixOf uri.data then
      Scheme.file ⟨uri.data.drop "file://".length⟩
    else if "file:".data.isPrefixOf uri.data then
      Scheme.file ⟨uri.data.drop "file:".length⟩
    else if "http:".data.isPrefixOf uri.data || "https:".data.isPrefixOf uri.data then
      Scheme.external uri
    else
      Scheme.unsupported
  else
    Scheme.relative

/-- `gltf::Error`, restricted to the variants this importer produces.
`base64` wraps a base64 decode failure (`InvalidEncoding`), `image` wraps a
codec failure, `ioErr` wraps a loader I/O failure. -/
inductive Error where
  | unsupportedScheme
  | missingBlob
  | base64
  | bufferLength (buffer expected actual : Nat)
  | unsupportedImageEncoding
  | externalReferenceInSliceImport
  | ioErr
  | image
deriving DecidableEq, Repr

/-- A path value handed to the loader.  `str s` is `PathBuf::from(s)`;
`joined b r` is `base.join(r)` — kept syntactic so no `PathBuf::join`
semantics have to be invented. -/
inductive RPath where
  | str (s : String)
  | joined (base : String) (rel : String)
deriving DecidableEq, Repr

/-- `gltf::buffer::Source`: a URI or the inline binary chunk (`Bin`). -/
inductive BufferSource where
  | uri (u : String)
  | bin
deriving DecidableEq, Repr

/-- One entry of the document's `buffers` array: its source and its declared
byte length (`buffer.length()`). -/
structure BufferEntry where
  source : BufferSource
  length : Nat
deriving DecidableEq, Repr

/-- `gltf::image::Source`: a URI (with optional MIME hint) or a buffer view
(buffer index, byte offset, byte length, required MIME hint). -/
inductive ImageSource where
  | uri (u : String) (mimeType : Option String)
  | view (bufferIndex offset length : Nat) (mimeType : String)
deriving DecidableEq, Repr

/-- The parsed document, reduced to what the importer reads: the `buffers`
and `images` arrays.  `buffer.index()` / `image.index()` is the position in
the respective array. -/
structure Document where
  buffers : List BufferEntry
  images : List ImageSource
deriving DecidableEq, Repr

/-- Recognized image formats; `other` stands for any format the `image`
crate can sniff that is neither PNG nor JPEG. -/
inductive ImgFmt where
  | png
  | jpeg
  | other
deriving DecidableEq, Repr

/-- An opaque decoded image (`image::DynamicImage`). -/
structure DecImage where
  tag : Nat
deriving DecidableEq, Repr

/-- The opaque external collaborators:
`b64 = base64::decode` (`none` = decode error),
`sniff = image::guess_format` (`none` = sniffing error),
`decode = image::load_from_memory_with_format` (`none` = codec error). -/
structure Ext where
  b64 : String → Option Bytes
  sniff : Bytes → Option ImgFmt
  decode : Bytes → ImgFmt → Option DecImage

/-- One per-path answer of a returned loader bundle (`loaded.bytes(path)`):
bytes, an `IOError::IO` failure, or any other failure. -/
inductive BundleRes where
  | ok (bytes : Bytes)
  | ioFail
  | otherFail
deriving DecidableEq, Repr

/-- The bundle a `Loader::load` callback receives, as a per-path oracle. -/
abbrev Bundle := RPath → BundleRes

/-- `LoadedBuffers = HashMap<usize, buffer::Data>`, modelled as an
association list in document order (indices are distinct). -/
abbrev LoadedBuffers := List (Nat × Bytes)

/-- `LoadedImages = HashMap<usize, DynamicImage>`, as an association list. -/
abbrev LoadedImages := List (Nat × DecImage)

/-- `ImportedGltfModel`: the final aggregate. -/
structure ImportedGltfModel where
  images : LoadedImages
  buffers : LoadedBuffers
  document : Document
deriving DecidableEq, Repr

/-- `enum BufferImport` from the source. -/
inductive BufferImport where
  | loaded (index : Nat) (data : Bytes) (length : Nat)
  | needsLoading (index : Nat) (path : RPath) (length : Nat)
deriving DecidableEq, Repr

/-- The `index` field of a buffer plan. -/
def BufferImport.idx : BufferImport → Nat
  | .loaded i _ _ => i
  | .needsLoading i _ _ => i

/-- The `length` field of a buffer plan. -/
def BufferImport.len : BufferImport → Nat
  | .loaded _ _ l => l
  | .needsLoading _ _ l => l

/-- `enum ImageImport` from the source. -/
inductive ImageImport where
  | loaded (index : Nat) (data : DecImage)
  | needsLoading (index : Nat) (path : RPath) (mimeType : Option String)
deriving DecidableEq, Repr

/-- The `index` field of an image plan. -/
def ImageImport.idx : ImageImport → Nat
  | .loaded i _ => i
  | .needsLoading i _ _ => i

/-- Outcome of a code fragment that may diverge by a Rust panic (slice
index out of bounds) instead of returning a value. -/
inductive POutcome (α : Type) where
  | ok (a : α)
  | err (e : Error)
  | panic
deriving DecidableEq, Repr

/-- Sequencing of panic-capable outcomes: an error or a panic propagates. -/
def POutcome.then {α β : Type} (x : POutcome α) (f : α → POutcome β) :
    POutcome β :=
  match x with
  | .ok a => f a
  | .err e => .err e
  | .panic => .panic

/-- `GltfImporter::load_buffer_from_data_uri`: decode base64, wrapping a
failure as `Error::Base64`. -/
def load_buffer_from_data_uri (ext : Ext) (b64s : String) : Except Error Bytes :=
  match ext.b64 b64s with
  | some data => .ok data
  | none => .error .base64

/-- `GltfImporter::guess_format`: accept only PNG and JPEG from the
`image` crate's sniffer. -/
def guess_format (ext : Ext) (encoded : Bytes) : Option ImgFmt :=
  match ext.sniff encoded with
  | some .png => some .png
  | some .jpeg => some .jpeg
  | _ => none

/-- `GltfImporter::mime_type_to_image_format`: trust an exact
`image/png` / `image/jpeg` hint, otherwise fall back to sniffing. -/
def mime_type_to_image_format (ext : Ext) (encoded : Bytes)
    (mimeType : Option String) : Except Error ImgFmt :=
  match mimeType with
  | some t =>
    if t = "image/png" then .ok .png
    else if t = "image/jpeg" then .ok .jpeg
    else
      match guess_format ext encoded with
      | some fmt => .ok fmt
      | none => .error .unsupportedImageEncoding
  | none =>
    match guess_format ext encoded with
    | some fmt => .ok fmt
    | none => .error .unsupportedImageEncoding

/-- `GltfImporter::load_image_from_buffer`. -/
def load_image_from_buffer (ext : Ext) (buf : Bytes)
    (mimeType : Option String) : Except Error DecImage :=
  match mime_type_to_image_format ext buf mimeType with
  | .error e => .error e
  | .ok fmt =>
    match ext.decode buf fmt with
    | some img => .ok img
    | none => .error .image

/-- `GltfImporter::load_image_from_data_uri`. -/
def load_image_from_data_uri (ext : Ext) (mimeType : Option String)
    (b64s : String) : Except Error DecImage :=
  match ext.b64 b64s with
  | none => .error .base64
  | some encoded =>
    match mime_type_to_image_format ext encoded mimeType with
    | .error e => .error e
    | .ok fmt =>
      match ext.decode encoded fmt with
      | some img => .ok img
      | none => .error .image

/-- The planning loop of `GltfImporter::load_buffer_data` (the `for buffer
in document_buffers` loop): fail-fast, producing the plan list.  `i` is the
index of the first entry (`buffer.index()` is the array position) and
`blob` is the mutable `Option<Vec<u8>>` cell, consumed by `blob.take()`
at a `Source::Bin` entry. -/
def planBuffers (ext : Ext) (base : Option String) :
    List BufferEntry → Nat → Option Bytes → Except Error (List BufferImport)
  | [], _, _ => .ok []
  | b :: rest, i, blob =>
    match b.source with
    | .uri u =>
      match Scheme.parse u with
      | .data _ b64s =>
        match load_buffer_from_data_uri ext b64s with
        | .ok data =>
          (planBuffers ext base rest (i + 1) blob).map
            (fun tail => .loaded i data b.length :: tail)
        | .error e => .error e
      | .file p =>
        (planBuffers ext base rest (i + 1) blob).map
          (fun tail => .needsLoading i (.str p) b.length :: tail)
      | .relative =>
        match base with
        | some bd =>
          (planBuffers ext base rest (i + 1) blob).map
            (fun tail => .needsLoading i (.joined bd u) b.length :: tail)
        | none => .error .unsupportedScheme
      | .external url =>
        (planBuffers ext base rest (i + 1) blob).map
          (fun tail => .needsLoading i (.str url) b.length :: tail)
      | .unsupported => .error .unsupportedScheme
    | .bin =>
      match blob with
      | some data =>
        (planBuffers ext base rest (i + 1) none).map
          (fun tail => .loaded i data b.length :: tail)
      | none => .error .missingBlob

/-- Whether some entry's source is the inline binary chunk (`Source::Bin`);
used to describe how `planBuffers` threads the single blob. -/
def hasBin : List BufferEntry → Bool
  | [] => false
  | b :: rest =>
    (match b.source with
     | .bin => true
     | .uri _ => false) || hasBin rest

/-- The pending paths collected from a buffer plan (the `filter_map` before
`Loader::load`). -/
def bufferPaths (plans : List BufferImport) : List RPath :=
  plans.filterMap (fun p =>
    match p with
    | .needsLoading _ path _ => some path
    | _ => none)

/-- First stage of the buffer-resolution closure: look a pending plan's
path up in the bundle (`loaded.bytes(path)`), turning `IOError::IO` into
`Error::Io` and any other failure into `Error::MissingBlob`. -/
def resolveBuffer (bundle : Bundle) (p : BufferImport) :
    Except Error (Nat × Bytes × Nat) :=
  match p with
  | .needsLoading i path len =>
    match bundle path with
    | .ok bytes => .ok (i, bytes, len)
    | .ioFail => .error .ioErr
    | .otherFail => .error .missingBlob
  | .loaded i data len => .ok (i, data, len)

/-- The `while buffer_data.len() % 4 != 0 { buffer_data.push(0) }` loop,
in closed form: append zero bytes up to the next multiple of 4.
`pad4_loop` below proves this satisfies the loop's recurrence. -/
def pad4 (data : Bytes) : Bytes :=
  data ++ List.replicate ((4 - data.length % 4) % 4) 0

/-- Second stage of the buffer-resolution closure: the declared-length
check (`Error::BufferLength`) followed by zero padding. -/
def validatePad (x : Nat × Bytes × Nat) : Except Error (Nat × Bytes) :=
  let (i, data, len) := x
  if data.length < len then
    .error (.bufferLength i len data.length)
  else
    .ok (i, pad4 data)

/-- One buffer plan's full resolution (the two chained `.map` stages of the
source's iterator). -/
def bufStep (bundle : Bundle) (p : BufferImport) : Except Error (Nat × Bytes) :=
  match resolveBuffer bundle p with
  | .ok x => validatePad x
  | .error e => .error e

/-- `collect::<Result<_>>`: left-to-right, short-circuiting at the first
error, as Rust's `FromIterator for Result` does. -/
def collectE {α β : Type} (f : α → Except Error β) :
    List α → Except Error (List β)
  | [] => .ok []
  | a :: rest =>
    match f a with
    | .error e => .error e
    | .ok b =>
      match collectE f rest with
      | .error e => .error e
      | .ok bs => .ok (b :: bs)

/-- `GltfImporter::load_buffer_data`, with the `Loader::load` callback
already applied to a bundle: plan, then resolve/validate/pad each plan in
document order. -/
def load_buffer_data (ext : Ext) (bundle : Bundle) (doc : Document)
    (base : Option String) (blob : Option Bytes) : Except Error LoadedBuffers :=
  match planBuffers ext base doc.buffers 0 blob with
  | .error e => .error e
  | .ok plans => collectE (bufStep bundle) plans

/-- The path list this buffer phase hands to `Loader::load` — one
invocation whenever planning succeeds (the source calls `Loader::load`
unconditionally after the planning loop, even with an empty path list). -/
def bufferLoaderCalls (ext : Ext) (doc : Document) (base : Option String)
    (blob : Option Bytes) : List (List RPath) :=
  match planBuffers ext base doc.buffers 0 blob with
  | .error _ => []
  | .ok plans => [bufferPaths plans]

/-- `buffer_data.get(&index)` on the resolved-buffers map. -/
def lookupBuf (bufs : LoadedBuffers) (i : Nat) : Option Bytes :=
  List.lookup i bufs

/-- The planning loop of `GltfImporter::load_image_data`.  A `Source::Uri`
entry is only matched under the `base.is_some()` guard; with no base it
falls to the catch-all `ExternalReferenceInSliceImport` arm.  A
`Source::View` entry slices `[offset, offset+length)` out of the resolved
parent buffer — a range beyond the buffer's bytes is a Rust panic, which
`POutcome.panic` records. -/
def planImages (ext : Ext) (base : Option String) (bufs : LoadedBuffers) :
    List ImageSource → Nat → POutcome (List ImageImport)
  | [], _ => .ok []
  | img :: rest, i =>
    match img with
    | .uri u mimeType =>
      match base with
      | some bd =>
        match Scheme.parse u with
        | .data mediaType b64s =>
          match load_image_from_data_uri ext
              (match mediaType with | some m => some m | none => mimeType) b64s with
          | .ok d =>
            (planImages ext base bufs rest (i + 1)).then
              (fun tail => .ok (.loaded i d :: tail))
          | .error e => .err e
        | .file p =>
          (planImages ext base bufs rest (i + 1)).then
            (fun tail => .ok (.needsLoading i (.str p) mimeType :: tail))
        | .relative =>
          (planImages ext base bufs rest (i + 1)).then
            (fun tail => .ok (.needsLoading i (.joined bd u) mimeType :: tail))
        | .external url =>
          (planImages ext base bufs rest (i + 1)).then
            (fun tail => .ok (.needsLoading i (.str url) mimeType :: tail))
        | .unsupported => .err .unsupportedScheme
      | none => .err .externalReferenceInSliceImport
    | .view bufferIndex offset length mimeType =>
      match lookupBuf bufs bufferIndex with
      | none => .err .missingBlob
      | some parent =>
        if offset + length ≤ parent.length then
          match load_image_from_buffer ext
              ((parent.drop offset).take length) (some mimeType) with
          | .ok d =>
            (planImages ext base bufs rest (i + 1)).then
              (fun tail => .ok (.loaded i d :: tail))
          | .error e => .err e
        else
          .panic

/-- The pending paths collected from an image plan. -/
def imagePaths (plans : List ImageImport) : List RPath :=
  plans.filterMap (fun p =>
    match p with
    | .needsLoading _ path _ => some path
    | _ => none)

/-- One image plan's resolution inside the image-phase `Loader::load`
callback: fetch the bytes, then decode via `load_image_from_buffer`. -/
def imgStep (ext : Ext) (bundle : Bundle) (p : ImageImport) :
    Except Error (Nat × DecImage) :=
  match p with
  | .needsLoading i path mimeType =>
    match bundle path with
    | .ok bytes =>
      match load_image_from_buffer ext bytes mimeType with
      | .ok d => .ok (i, d)
      | .error e => .error e
    | .ioFail => .error .ioErr
    | .otherFail => .error .missingBlob
  | .loaded i d => .ok (i, d)

/-- `GltfImporter::load_image_data`, with its `Loader::load` callback
already applied to a bundle. -/
def load_image_data (ext : Ext) (bundle : Bundle) (doc : Document)
    (base : Option String) (bufs : LoadedBuffers) : POutcome LoadedImages :=
  match planImages ext base bufs doc.images 0 with
  | .panic => .panic
  | .err e => .err e
  | .ok plans =>
    match collectE (imgStep ext bundle) plans with
    | .error e => .err e
    | .ok imgs => .ok imgs

/-- The path list the image phase hands to `Loader::load` — again one
unconditional invocation whenever image planning completes. -/
def imageLoaderCalls (ext : Ext) (doc : Document) (base : Option String)
    (bufs : LoadedBuffers) : List (List RPath) :=
  match planImages ext base bufs doc.images 0 with
  | .ok plans => [imagePaths plans]
  | _ => []

/-- `GltfImporter::import`: buffer phase, then image phase, then assembly.
`bufBundle` and `imgBundle` are the two loader callbacks' bundles. -/
def importModel (ext : Ext) (bufBundle imgBundle : Bundle) (doc : Document)
    (base : Option String) (blob : Option Bytes) : POutcome ImportedGltfModel :=
  match load_buffer_data ext bufBundle doc base blob with
  | .error e => .err e
  | .ok bufs =>
    match load_image_data ext imgBundle doc base bufs with
    | .panic => .panic
    | .err e => .err e
    | .ok imgs => .ok { images := imgs, buffers := bufs, document := doc }

/-- The sequence of values passed to the `on_done` completion callback
during `GltfImporter::import`, following the source's three `on_done`
call sites (buffer-phase error, image-phase error, final success); a
panic unwinds past all of them. -/
def importTrace (ext : Ext) (bufBundle imgBundle : Bundle) (doc : Document)
    (base : Option String) (blob : Option Bytes) :
    List (Except Error ImportedGltfModel) :=
  match load_buffer_data ext bufBundle doc base blob with
  | .error e => [.error e]
  | .ok bufs =>
    match load_image_data ext imgBundle doc base bufs with
    | .panic => []
    | .err e => [.error e]
    | .ok imgs => [.ok { images := imgs, buffers := bufs, document := doc }]

/-- All `Loader::load` invocations of one import run, in order: the buffer
phase's (if buffer planning succeeds) then the image phase's (if the
buffer phase succeeds and image planning completes). -/
def importLoaderCalls (ext : Ext) (bufBundle : Bundle) (doc : Document)
    (base : Option String) (blob : Option Bytes) : List (List RPath) :=
  match load_buffer_data ext bufBundle doc base blob with
  | .error _ => bufferLoaderCalls ext doc base blob
  | .ok bufs => bufferLoaderCalls ext doc base blob ++ imageLoaderCalls ext doc base bufs

/-! ## Concrete collaborators for evaluating the pipeline on closed inputs -/

/-- Collaborators that fail on everything. -/
def extTriv : Ext := ⟨fun _ => none, fun _ => none, fun _ _ => none⟩

/-- Collaborators that succeed on everything: base64 decodes to `[1, 2, 3]`,
sniffing says PNG, decoding yields image `⟨7⟩`. -/
def extW : Ext := ⟨fun _ => some [1, 2, 3], fun _ => some .png, fun _ _ => some ⟨7⟩⟩

/-- A bundle with every fetch failing (non-I/O). -/
def bundleTriv : Bundle := fun _ => .otherFail

/-- A bundle answering five bytes for every path. -/
def bundleOk : Bundle := fun _ => .ok [9, 9, 9, 9, 9]

/-- A bundle failing exactly the relative path `y.bin`. -/
def bundleSel : Bundle := fun p =>
  match p with
  | .joined _ r => if r = "y.bin" then .otherFail else .ok []
  | .str _ => .ok []

/-- Scenario document: one inline-binary buffer, one buffer-view image. -/
def docB : Document := ⟨[⟨.bin, 4⟩], [.view 0 0 2 "image/png"]⟩

/-- The model scenario `docB` assembles with `extW` and blob `[5,6,7,8]`. -/
def modelB : ImportedGltfModel := ⟨[(0, ⟨7⟩)], [(0, [5, 6, 7, 8])], docB⟩

/-- Scenario document: one relative-URI buffer declaring nine bytes. -/
def docS : Document := ⟨[⟨.uri "x.bin", 9⟩], []⟩

/-- Scenario document: two relative-URI buffers. -/
def docT : Document := ⟨[⟨.uri "x.bin", 0⟩, ⟨.uri "y.bin", 0⟩], []⟩

/-- Scenario document: an external-URL image and no buffers. -/
def docU : Document := ⟨[], [.uri "https://a/b.png" none]⟩

/-- Scenario document: a buffer view reaching past its 4-byte buffer. -/
def docP : Document := ⟨[⟨.bin, 4⟩], [.view 0 2 5 "image/png"]⟩

/-- Scenario document: a buffer view naming the absent buffer index 1. -/
def docM : Document := ⟨[⟨.bin, 4⟩], [.view 1 0 2 "image/png"]⟩

/-! ## Generic lemmas -/

/-- `pad4` satisfies the recurrence of the source's `while` loop, so it is
the loop's (terminating) fixpoint. -/
theorem pad4_loop (data : Bytes) :
    pad4 data = if data.length % 4 = 0 then data else pad4 (data ++ [0]) := by
  by_cases h : data.length % 4 = 0
  · simp [pad4, h]
  · have h4 : (4 - data.length % 4) % 4 = ((4 - (data.length + 1) % 4) % 4) + 1 := by
      omega
    simp only [pad4, h, if_false, List.length_append, List.length_cons,
      List.length_nil, Nat.zero_add, h4, List.replicate_succ, List.append_assoc,
      List.cons_append, List.nil_append]

/-- Padding yields a multiple of 4. -/
theorem pad4_length_mod (data : Bytes) : (pad4 data).length % 4 = 0 := by
  simp only [pad4, List.length_append, List.length_replicate]
  omega

/-- Padding never truncates. -/
theorem pad4_length_le (data : Bytes) : data.length ≤ (pad4 data).length := by
  simp [pad4]

/-- `Except.map (x :: ·)` hitting `.ok` forces the unmapped result. -/
theorem except_map_cons_ok {β : Type} {rec : Except Error (List β)} {x : β}
    {plans : List β} (h : rec.map (fun tail => x :: tail) = .ok plans) :
    ∃ tail, rec = .ok tail ∧ plans = x :: tail := by
  cases rec with
  | error e => simp [Except.map] at h
  | ok t => refine ⟨t, rfl, ?_⟩; simpa [Except.map] using h.symm

/-- A successful `collectE` run is element-wise successful, in order. -/
theorem collectE_ok_get {α β : Type} {f : α → Except Error β} {xs : List α}
    {ys : List β} (h : collectE f xs = .ok ys) :
    ys.length = xs.length ∧
      ∀ (j : Nat) (x : α), xs[j]? = some x → ∃ y, ys[j]? = some y ∧ f x = .ok y := by
  induction xs generalizing ys with
  | nil =>
    simp only [collectE] at h
    cases h
    simp
  | cons a rest ih =>
    simp only [collectE] at h
    cases hfa : f a with
    | error e => rw [hfa] at h; cases h
    | ok b =>
      rw [hfa] at h
      cases hrest : collectE f rest with
      | error e => rw [hrest] at h; cases h
      | ok bs =>
        rw [hrest] at h
        cases h
        obtain ⟨hlen, hget⟩ := ih hrest
        refine ⟨by simp [hlen], ?_⟩
        intro j x hx
        cases j with
        | zero =>
          simp only [List.getElem?_cons_zero, Option.some.injEq] at hx
          exact ⟨b, by simp, hx ▸ hfa⟩
        | succ n =>
          simp only [List.getElem?_cons_succ] at hx ⊢
          exact hget n x hx

/-- `collectE` surfaces the error of the first failing element: if
every element before position `k` succeeds and the element at `k` fails
with `e`, the whole run fails with `e`. -/
theorem collectE_first_error {α β : Type} {f : α → Except Error β}
    {xs : List α} {k : Nat} {x : α} {e : Error}
    (hk : xs[k]? = some x) (hx : f x = .error e)
    (hpre : ∀ j y, j < k → xs[j]? = some y → ∃ b, f y = .ok b) :
    collectE f xs = .error e := by
  induction xs generalizing k with
  | nil => simp at hk
  | cons a rest ih =>
    cases k with
    | zero =>
      simp only [List.getElem?_cons_zero, Option.some.injEq] at hk
      simp [collectE, hk ▸ hx]
    | succ n =>
      simp only [List.getElem?_cons_succ] at hk
      obtain ⟨b, hb⟩ := hpre 0 a (Nat.succ_pos n) (by simp)
      have htail := ih hk (fun j y hj hy =>
        hpre (j + 1) y (by omega) (by simpa using hy))
      simp [collectE, hb, htail]

/-- Result construction short-circuits: under the hypotheses of
`collectE_first_error`, the elements after the first failing one
contribute nothing — the run equals the run on the truncated list. -/
theorem collectE_take {α β : Type} {f : α → Except Error β}
    {xs : List α} {k : Nat} {x : α} {e : Error}
    (hk : xs[k]? = some x) (hx : f x = .error e)
    (hpre : ∀ j y, j < k → xs[j]? = some y → ∃ b, f y = .ok b) :
    collectE f xs = collectE f (xs.take (k + 1)) := by
  have h1 : collectE f xs = .error e := collectE_first_error hk hx hpre
  have hk' : (xs.take (k + 1))[k]? = some x := by
    rw [List.getElem?_take]
    simp [hk]
  have h2 : collectE f (xs.take (k + 1)) = .error e := by
    refine collectE_first_error hk' hx ?_
    intro j y hj hy
    refine hpre j y hj ?_
    rwa [List.getElem?_take, if_pos (by omega)] at hy
  rw [h1, h2]

/-- A successful buffer-planning pass covers the entries one-to-one, with
each plan carrying the entry's array position as its `index` and the
entry's declared length as its `length`. -/
theorem planBuffers_ok_shape {ext : Ext} {base : Option String}
    {entries : List BufferEntry} {i : Nat} {blob : Option Bytes}
    {plans : List BufferImport}
    (h : planBuffers ext base entries i blob = .ok plans) :
    plans.length = entries.length ∧
      ∀ (j : Nat) (p : BufferImport), plans[j]? = some p →
        ∃ b, entries[j]? = some b ∧ p.idx = i + j ∧ p.len = b.length := by
  induction entries generalizing i blob plans with
  | nil =>
    simp only [planBuffers] at h
    cases h
    simp
  | cons b rest ih =>
    simp only [planBuffers] at h
    split at h
    all_goals repeat' first
      | exact Except.noConfusion h
      | split at h
    all_goals
      obtain ⟨tail, hrec, hplans⟩ := except_map_cons_ok h
      subst hplans
      obtain ⟨hlen, hget⟩ := ih hrec
      refine ⟨by simp [hlen], ?_⟩
      intro j p hp
      cases j with
      | zero =>
        simp only [List.getElem?_cons_zero, Option.some.injEq] at hp
        subst hp
        exact ⟨b, by simp, by simp [BufferImport.idx], by simp [BufferImport.len]⟩
      | succ n =>
        simp only [List.getElem?_cons_succ] at hp ⊢
        obtain ⟨bb, h1, h2, h3⟩ := hget n p hp
        exact ⟨bb, h1, by omega, h3⟩

/-- Two `Except.map`s compose. -/
theorem except_map_map {β γ δ : Type} (f : β → γ) (g : γ → δ)
    (x : Except Error β) : (x.map f).map g = x.map (fun b => g (f b)) := by
  cases x <;> rfl

/-- Splitting a buffer-planning pass after a successful head segment: the
tail segment is planned starting at the next index, with the blob gone
exactly when some head entry was sourced from the inline chunk. -/
theorem planBuffers_append_ok {ext : Ext} {base : Option String}
    {xs : List BufferEntry} (ys : List BufferEntry) {i : Nat}
    {blob : Option Bytes} {ps : List BufferImport}
    (h : planBuffers ext base xs i blob = .ok ps) :
    planBuffers ext base (xs ++ ys) i blob =
      (planBuffers ext base ys (i + xs.length)
        (if hasBin xs then none else blob)).map (fun qs => ps ++ qs) := by
  induction xs generalizing i blob ps with
  | nil =>
    simp only [planBuffers] at h
    cases h
    simp only [List.nil_append, List.length_nil, Nat.add_zero, hasBin,
      Bool.false_eq_true, if_false]
    cases planBuffers ext base ys i blob <;> simp [Except.map]
  | cons b rest ih =>
    obtain ⟨src, blen⟩ := b
    cases src with
    | uri u =>
      simp only [planBuffers, List.cons_append] at h ⊢
      cases hs : Scheme.parse u <;> simp only [hs] at h ⊢
      case data mt b64s =>
        cases hl : load_buffer_from_data_uri ext b64s <;> simp only [hl] at h ⊢
        case error e => exact Except.noConfusion h
        case ok data =>
          obtain ⟨tail, hrec, hps⟩ := except_map_cons_ok h
          subst hps
          simp only [List.append_eq]; rw [ih hrec, except_map_map]
          have hidx : i + 1 + rest.length = i + (rest.length + 1) := by omega
          simp [hasBin, hidx]
      case file p =>
        obtain ⟨tail, hrec, hps⟩ := except_map_cons_ok h
        subst hps
        simp only [List.append_eq]; rw [ih hrec, except_map_map]
        have hidx : i + 1 + rest.length = i + (rest.length + 1) := by omega
        simp [hasBin, hidx]
      case relative =>
        cases base with
        | none => exact Except.noConfusion h
        | some bd =>
          simp only at h ⊢
          obtain ⟨tail, hrec, hps⟩ := except_map_cons_ok h
          subst hps
          simp only [List.append_eq]; rw [ih hrec, except_map_map]
          have hidx : i + 1 + rest.length = i + (rest.length + 1) := by omega
          simp [hasBin, hidx]
      case external url =>
        obtain ⟨tail, hrec, hps⟩ := except_map_cons_ok h
        subst hps
        simp only [List.append_eq]; rw [ih hrec, except_map_map]
        have hidx : i + 1 + rest.length = i + (rest.length + 1) := by omega
        simp [hasBin, hidx]
      case unsupported => exact Except.noConfusion h
    | bin =>
      cases blob with
      | none => exact Except.noConfusion h
      | some data =>
        simp only [planBuffers, List.cons_append] at h ⊢
        obtain ⟨tail, hrec, hps⟩ := except_map_cons_ok h
        subst hps
        simp only [List.append_eq]; rw [ih hrec, except_map_map]
        have hidx : i + 1 + rest.length = i + (rest.length + 1) := by omega
        simp [hasBin, hidx]

/-- Planning never reads the blob when no entry is sourced from the inline
chunk, so an unclaimed blob changes nothing. -/
theorem planBuffers_blob_irrel {ext : Ext} {base : Option String}
    {entries : List BufferEntry} (h : hasBin entries = false)
    (i : Nat) (blob blob' : Option Bytes) :
    planBuffers ext base entries i blob = planBuffers ext base entries i blob' := by
  induction entries generalizing i with
  | nil => rfl
  | cons b rest ih =>
    obtain ⟨src, blen⟩ := b
    cases src with
    | uri u =>
      simp only [hasBin, Bool.false_or] at h
      simp only [planBuffers]
      cases hs : Scheme.parse u <;> simp only [hs]
      case data mt b64s =>
        cases hl : load_buffer_from_data_uri ext b64s <;> simp only [hl]
        case ok data => rw [ih h]
      case file p => rw [ih h]
      case relative =>
        cases base with
        | none => rfl
        | some bd => simp only; rw [ih h]
      case external url => rw [ih h]
    | bin => simp [hasBin] at h

/-- A successful fetch stage keeps the plan's index and declared length. -/
theorem resolveBuffer_ok_fields {bundle : Bundle} {p : BufferImport}
    {i : Nat} {bytes : Bytes} {len : Nat}
    (h : resolveBuffer bundle p = .ok (i, bytes, len)) :
    i = p.idx ∧ len = p.len := by
  cases p with
  | loaded j data l =>
    simp only [resolveBuffer, Except.ok.injEq, Prod.mk.injEq] at h
    obtain ⟨h1, _, h3⟩ := h
    exact ⟨h1.symm, h3.symm⟩
  | needsLoading j path l =>
    simp only [resolveBuffer] at h
    cases hb : bundle path <;> rw [hb] at h <;> try exact Except.noConfusion h
    simp only [Except.ok.injEq, Prod.mk.injEq] at h
    obtain ⟨h1, _, h3⟩ := h
    exact ⟨h1.symm, h3.symm⟩

/-- A buffer plan that resolves and validates successfully produced the
plan's index and the zero-padding of some byte sequence at least as long
as the plan's declared length. -/
theorem bufStep_ok_shape {bundle : Bundle} {p : BufferImport}
    {i : Nat} {d : Bytes} (h : bufStep bundle p = .ok (i, d)) :
    i = p.idx ∧ ∃ orig, p.len ≤ orig.length ∧ d = pad4 orig := by
  unfold bufStep at h
  cases hr : resolveBuffer bundle p with
  | error e => rw [hr] at h; exact Except.noConfusion h
  | ok x =>
    rw [hr] at h
    obtain ⟨j, bytes, len⟩ := x
    obtain ⟨hidx, hlen⟩ := resolveBuffer_ok_fields hr
    simp only [validatePad] at h
    split at h
    · exact Except.noConfusion h
    · next hge =>
      simp only [Except.ok.injEq, Prod.mk.injEq] at h
      obtain ⟨h1, h2⟩ := h
      exact ⟨h1 ▸ hidx, bytes, by omega, h2.symm⟩

/-- A buffer whose obtained bytes fall short of the declared length fails
its resolution step with `BufferLength{index, expected, actual}`. -/
theorem bufStep_short {bundle : Bundle} {p : BufferImport}
    {i : Nat} {bytes : Bytes} {len : Nat}
    (hr : resolveBuffer bundle p = .ok (i, bytes, len))
    (hshort : bytes.length < len) :
    bufStep bundle p = .error (.bufferLength i len bytes.length) := by
  simp [bufStep, hr, validatePad, hshort]

/-- A successful image-resolution step keeps the plan's index. -/
theorem imgStep_ok_idx {ext : Ext} {bundle : Bundle} {p : ImageImport}
    {i : Nat} {d : DecImage} (h : imgStep ext bundle p = .ok (i, d)) :
    i = p.idx := by
  cases p with
  | loaded j dd =>
    simp only [imgStep, Except.ok.injEq, Prod.mk.injEq] at h
    exact h.1.symm
  | needsLoading j path mt =>
    simp only [imgStep] at h
    split at h
    · split at h
      · simp only [Except.ok.injEq, Prod.mk.injEq] at h
        exact h.1.symm
      · exact Except.noConfusion h
    · exact Except.noConfusion h
    · exact Except.noConfusion h

/-- Sequencing reaching `.ok` forces both stages to `.ok`. -/
theorem POutcome.then_eq_ok {α β : Type} {x : POutcome α} {f : α → POutcome β}
    {v : β} (h : x.then f = .ok v) : ∃ a, x = .ok a ∧ f a = .ok v := by
  cases x with
  | ok a => exact ⟨a, rfl, h⟩
  | err e => exact POutcome.noConfusion h
  | panic => exact POutcome.noConfusion h

/-- Sequencing of panic-capable outcomes is associative. -/
theorem POutcome.then_assoc {α β γ : Type} (x : POutcome α)
    (f : α → POutcome β) (g : β → POutcome γ) :
    (x.then f).then g = x.then (fun a => (f a).then g) := by
  cases x <;> rfl

/-- A successful image-planning pass covers the entries one-to-one, with
each plan carrying the entry's array position as its `index`. -/
theorem planImages_ok_shape {ext : Ext} {base : Option String}
    {bufs : LoadedBuffers} {entries : List ImageSource} {i : Nat}
    {plans : List ImageImport}
    (h : planImages ext base bufs entries i = .ok plans) :
    plans.length = entries.length ∧
      ∀ (j : Nat) (p : ImageImport), plans[j]? = some p → p.idx = i + j := by
  induction entries generalizing i plans with
  | nil =>
    simp only [planImages] at h
    cases h
    simp
  | cons img rest ih =>
    simp only [planImages] at h
    split at h
    all_goals repeat' first
      | exact POutcome.noConfusion h
      | split at h
    all_goals
      obtain ⟨tail, hrec, hfa⟩ := POutcome.then_eq_ok h
      cases hfa
      obtain ⟨hlen, hget⟩ := ih hrec
      refine ⟨by simp [hlen], ?_⟩
      intro j p hp
      cases j with
      | zero =>
        simp only [List.getElem?_cons_zero, Option.some.injEq] at hp
        subst hp
        simp [ImageImport.idx]
      | succ n =>
        simp only [List.getElem?_cons_succ] at hp
        have := hget n p hp
        omega

/-- Splitting an image-planning pass after a successful head segment (no
blob is threaded on the image side, so only the start index shifts). -/
theorem planImages_append_ok {ext : Ext} {base : Option String}
    {bufs : LoadedBuffers} {xs : List ImageSource} (ys : List ImageSource)
    {i : Nat} {ps : List ImageImport}
    (h : planImages ext base bufs xs i = .ok ps) :
    planImages ext base bufs (xs ++ ys) i =
      (planImages ext base bufs ys (i + xs.length)).then
        (fun qs => .ok (ps ++ qs)) := by
  induction xs generalizing i ps with
  | nil =>
    simp only [planImages] at h
    cases h
    simp only [List.nil_append, List.length_nil, Nat.add_zero]
    cases planImages ext base bufs ys i <;> rfl
  | cons img rest ih =>
    simp only [planImages, List.cons_append] at h ⊢
    split at h
    all_goals repeat' first
      | exact POutcome.noConfusion h
      | split at h
    all_goals
      obtain ⟨tail, hrec, hfa⟩ := POutcome.then_eq_ok h
      cases hfa
      simp only [List.append_eq, List.length_cons, *]
      rw [ih hrec, POutcome.then_assoc]
      have hidx : i + 1 + rest.length = i + (rest.length + 1) := by omega
      rw [hidx]
      rfl

/-- `splitFuel` always yields at least one segment (as Rust's `str::split`
does). -/
theorem splitFuel_ne_nil (sep : List Char) :
    ∀ (fuel : Nat) (s acc : List Char), splitFuel sep fuel s acc ≠ [] := by
  intro fuel
  induction fuel with
  | zero =>
    intro s acc
    cases s <;> simp [splitFuel]
  | succ n ih =>
    intro s acc
    cases s with
    | nil => simp [splitFuel]
    | cons c rest =>
      simp only [splitFuel]
      split
      · simp
      · exact ih rest (c :: acc)

/-- Inversion: a successful buffer phase is a successful planning pass
followed by a successful collect. -/
theorem load_buffer_data_ok_inv {ext : Ext} {bundle : Bundle} {doc : Document}
    {base : Option String} {blob : Option Bytes} {bufs : LoadedBuffers}
    (h : load_buffer_data ext bundle doc base blob = .ok bufs) :
    ∃ plans, planBuffers ext base doc.buffers 0 blob = .ok plans ∧
      collectE (bufStep bundle) plans = .ok bufs := by
  unfold load_buffer_data at h
  split at h
  · exact Except.noConfusion h
  · rename_i plans hp
    exact ⟨plans, hp, h⟩

/-- Inversion: a successful image phase is a successful planning pass
followed by a successful collect. -/
theorem load_image_data_ok_inv {ext : Ext} {bundle : Bundle} {doc : Document}
    {base : Option String} {bufs : LoadedBuffers} {imgs : LoadedImages}
    (h : load_image_data ext bundle doc base bufs = .ok imgs) :
    ∃ plans, planImages ext base bufs doc.images 0 = .ok plans ∧
      collectE (imgStep ext bundle) plans = .ok imgs := by
  unfold load_image_data at h
  split at h
  · exact POutcome.noConfusion h
  · exact POutcome.noConfusion h
  · rename_i plans hp
    split at h
    · exact POutcome.noConfusion h
    · rename_i imgs2 hc
      cases h
      exact ⟨plans, hp, hc⟩

/-- Inversion: a successful import is a successful buffer phase followed
by a successful image phase, assembled as the final model. -/
theorem importModel_ok_inv {ext : Ext} {bufBundle imgBundle : Bundle}
    {doc : Document} {base : Option String} {blob : Option Bytes}
    {m : ImportedGltfModel}
    (h : importModel ext bufBundle imgBundle doc base blob = .ok m) :
    ∃ bufs imgs, load_buffer_data ext bufBundle doc base blob = .ok bufs ∧
      load_image_data ext imgBundle doc base bufs = .ok imgs ∧
      m = ⟨imgs, bufs, doc⟩ := by
  unfold importModel at h
  split at h
  · exact POutcome.noConfusion h
  · rename_i bufs hb
    split at h
    · exact POutcome.noConfusion h
    · exact POutcome.noConfusion h
    · rename_i imgs hi
      cases h
      exact ⟨bufs, imgs, hb, hi, rfl⟩

/-! ## Claims -/

/-- C4: the scheme classifier, as a pure function of the URI string, maps
any string with no `:` to `Relative`; `data:image/png;base64,QUJD` to
`Data(Some "image/png", "QUJD")`; `../x.bin` to `Relative`;
`https://x/y.bin` to `External` carrying the full string; and `ftp://x`
to `Unsupported`. -/
theorem c4_scheme_classifier :
    (∀ uri : String, uri.data.contains ':' = false →
      Scheme.parse uri = Scheme.relative) ∧
    Scheme.parse "data:image/png;base64,QUJD" =
      Scheme.data (some "image/png") "QUJD" ∧
    Scheme.parse "../x.bin" = Scheme.relative ∧
    Scheme.parse "https://x/y.bin" = Scheme.external "https://x/y.bin" ∧
    Scheme.parse "ftp://x" = Scheme.unsupported := by
  refine ⟨?_, by decide, by decide, by decide, by decide⟩
  intro uri h
  unfold Scheme.parse
  rw [h]
  simp

/-- C4 witness: the universally quantified part applied at `abc`. -/
theorem c4_scheme_classifier_witness : Scheme.parse "abc" = Scheme.relative :=
  c4_scheme_classifier.1 "abc" (by decide)

/-- C5 counterexample: the claim says `data:` (a `data:` head with no
payload segment after it) classifies as `Unsupported`, but `str::split`
always yields at least one (possibly empty) segment, so the code returns
`Data(None, "")` — the `Unsupported` branch of the `data:` arm is
unreachable. -/
theorem c5_counterexample :
    Scheme.parse "data:" = Scheme.data none "" ∧
    Scheme.parse "data:" ≠ Scheme.unsupported := by
  decide

/-- C5 amended: for every URI string starting with `data:`, splitting the
remainder on `;base64,` always yields a first segment, so the classifier
never returns `Unsupported`; in particular `data:` itself classifies as
`Data(None, "")` (an empty payload, not a rejection). -/
theorem c5_amended :
    (∀ uri : String, "data:".data.isPrefixOf uri.data = true →
      Scheme.parse uri ≠ Scheme.unsupported) ∧
    Scheme.parse "data:" = Scheme.data none "" := by
  refine ⟨?_, by decide⟩
  intro uri hpre
  have hpfx : "data:".data <+: uri.data := List.isPrefixOf_iff_prefix.mp hpre
  obtain ⟨t, ht⟩ := hpfx
  have hcon : uri.data.contains ':' = true := by
    rw [← ht]
    have hmem : ':' ∈ "data:".data ++ t :=
      List.mem_append_left t (by decide)
    simp [List.contains, List.elem_eq_mem, hmem]
  simp only [Scheme.parse, hcon, hpre, if_true]
  cases hsp : splitSeq (";base64,".data) (uri.data.drop "data:".length) with
  | nil => exact absurd hsp (splitFuel_ne_nil _ _ _ _)
  | cons m0 ms =>
    cases ms <;> simp

/-- C5 amended witness: the universal part applied at `data:x`. -/
theorem c5_amended_witness : Scheme.parse "data:x" ≠ Scheme.unsupported :=
  c5_amended.1 "data:x" (by decide)

/-- C1: for every import run in which planning and the loader callbacks
complete (modelled: the run does not panic), the `on_done` completion
callback is invoked exactly once — its invocation trace is the singleton
holding either `Ok` of the assembled model or `Err` of the first error. -/
theorem c1_on_done_exactly_once (ext : Ext) (bufBundle imgBundle : Bundle)
    (doc : Document) (base : Option String) (blob : Option Bytes)
    (h : importModel ext bufBundle imgBundle doc base blob ≠ .panic) :
    (∃ m, importModel ext bufBundle imgBundle doc base blob = .ok m ∧
      importTrace ext bufBundle imgBundle doc base blob = [.ok m]) ∨
    (∃ e, importModel ext bufBundle imgBundle doc base blob = .err e ∧
      importTrace ext bufBundle imgBundle doc base blob = [.error e]) := by
  cases hb : load_buffer_data ext bufBundle doc base blob with
  | error e =>
    right
    exact ⟨e, by simp [importModel, hb], by simp [importTrace, hb]⟩
  | ok bufs =>
    cases hi : load_image_data ext imgBundle doc base bufs with
    | panic => exact absurd (by simp [importModel, hb, hi]) h
    | err e =>
      right
      exact ⟨e, by simp [importModel, hb, hi], by simp [importTrace, hb, hi]⟩
    | ok imgs =>
      left
      exact ⟨⟨imgs, bufs, doc⟩, by simp [importModel, hb, hi],
        by simp [importTrace, hb, hi]⟩

/-- C1 witness: the empty document with failing collaborators. -/
theorem c1_witness :
    (∃ m, importModel extTriv bundleTriv bundleTriv ⟨[], []⟩ none none = .ok m ∧
      importTrace extTriv bundleTriv bundleTriv ⟨[], []⟩ none none = [.ok m]) ∨
    (∃ e, importModel extTriv bundleTriv bundleTriv ⟨[], []⟩ none none = .err e ∧
      importTrace extTriv bundleTriv bundleTriv ⟨[], []⟩ none none = [.error e]) :=
  c1_on_done_exactly_once extTriv bundleTriv bundleTriv ⟨[], []⟩ none none
    (by decide)

/-- C6 counterexample: for the document with zero buffers and zero images
the import does succeed with empty maps, but the claim's "no call to the
external batch loader is made in either phase" is false — the source calls
`Loader::load` unconditionally after each planning loop, so the run makes
two loader invocations (each with an empty path list). -/
theorem c6_counterexample :
    importModel extTriv bundleTriv bundleTriv ⟨[], []⟩ none none =
      .ok ⟨[], [], ⟨[], []⟩⟩ ∧
    importLoaderCalls extTriv bundleTriv ⟨[], []⟩ none none = [[], []] ∧
    importLoaderCalls extTriv bundleTriv ⟨[], []⟩ none none ≠ [] := by
  refine ⟨by decide, by decide, by decide⟩

/-- C6 amended: for every document with zero buffer entries and zero image
entries, the import succeeds with an empty buffers map and an empty images
map, and the batch loader is invoked once per phase with an empty path
list (no path is ever requested). -/
theorem c6_amended (ext : Ext) (bufBundle imgBundle : Bundle)
    (base : Option String) (blob : Option Bytes) :
    importModel ext bufBundle imgBundle ⟨[], []⟩ base blob =
      .ok ⟨[], [], ⟨[], []⟩⟩ ∧
    importLoaderCalls ext bufBundle ⟨[], []⟩ base blob = [[], []] := by
  exact ⟨rfl, rfl⟩

/-- C3: every import that delivers `Ok` covers every buffer index and every
image index of the document in the respective resolved map — no partial
success. -/
theorem c3_no_partial_success (ext : Ext) (bufBundle imgBundle : Bundle)
    (doc : Document) (base : Option String) (blob : Option Bytes)
    (m : ImportedGltfModel)
    (h : importModel ext bufBundle imgBundle doc base blob = .ok m) :
    (∀ j, j < doc.buffers.length → ∃ d, (j, d) ∈ m.buffers) ∧
    (∀ j, j < doc.images.length → ∃ d, (j, d) ∈ m.images) := by
  obtain ⟨bufs, imgs, hb, hi, hm⟩ := importModel_ok_inv h
  subst hm
  obtain ⟨plans, hp, hc⟩ := load_buffer_data_ok_inv hb
  obtain ⟨plans2, hp2, hc2⟩ := load_image_data_ok_inv hi
  constructor
  · intro j hj
    obtain ⟨hplen, hpget⟩ := planBuffers_ok_shape hp
    obtain ⟨hclen, hcget⟩ := collectE_ok_get hc
    have hjp : j < plans.length := by omega
    obtain ⟨y, hy, hstep⟩ := hcget j plans[j] (List.getElem?_eq_getElem hjp)
    obtain ⟨yi, yd⟩ := y
    obtain ⟨hidx, -⟩ := bufStep_ok_shape hstep
    obtain ⟨bb, hbb, hbidx, -⟩ :=
      hpget j plans[j] (List.getElem?_eq_getElem hjp)
    refine ⟨yd, ?_⟩
    have hyj : yi = j := by omega
    rw [← hyj]
    exact List.mem_iff_getElem?.mpr ⟨j, hy⟩
  · intro j hj
    obtain ⟨hplen, hpget⟩ := planImages_ok_shape hp2
    obtain ⟨hclen, hcget⟩ := collectE_ok_get hc2
    have hjp : j < plans2.length := by omega
    obtain ⟨y, hy, hstep⟩ := hcget j plans2[j] (List.getElem?_eq_getElem hjp)
    obtain ⟨yi, yd⟩ := y
    have hidx := imgStep_ok_idx hstep
    have hpidx := hpget j plans2[j] (List.getElem?_eq_getElem hjp)
    refine ⟨yd, ?_⟩
    have hyj : yi = j := by omega
    rw [← hyj]
    exact List.mem_iff_getElem?.mpr ⟨j, hy⟩

/-- C3 witness: scenario B (inline-binary buffer plus view image). -/
theorem c3_witness :
    (∀ j, j < docB.buffers.length → ∃ d, (j, d) ∈ modelB.buffers) ∧
    (∀ j, j < docB.images.length → ∃ d, (j, d) ∈ modelB.images) :=
  c3_no_partial_success extW bundleTriv bundleTriv docB none
    (some [5, 6, 7, 8]) modelB (by decide)

/-- C2: every buffer of a successful import is zero-padded to a multiple
of 4, never truncated, and at least as long as the document-declared
length; and a buffer whose obtained bytes fall short of the declared
length makes buffer resolution fail with `BufferLength` carrying that
buffer's index, the declared length as `expected` and the obtained length
as `actual`. -/
theorem c2_buffer_length_and_padding (ext : Ext) (bundle : Bundle)
    (doc : Document) (base : Option String) (blob : Option Bytes) :
    (∀ bufs, load_buffer_data ext bundle doc base blob = .ok bufs →
      ∀ i data, (i, data) ∈ bufs →
        data.length % 4 = 0 ∧
        ∃ entry, doc.buffers[i]? = some entry ∧ entry.length ≤ data.length ∧
          ∃ orig, entry.length ≤ orig.length ∧
            data = orig ++ List.replicate (data.length - orig.length) 0) ∧
    (∀ plans k p i bytes len,
      planBuffers ext base doc.buffers 0 blob = .ok plans →
      plans[k]? = some p →
      (∀ j q, j < k → plans[j]? = some q → ∃ b, bufStep bundle q = .ok b) →
      resolveBuffer bundle p = .ok (i, bytes, len) →
      bytes.length < len →
      load_buffer_data ext bundle doc base blob =
        .error (.bufferLength i len bytes.length) ∧
      i = k ∧ ∃ entry, doc.buffers[k]? = some entry ∧ len = entry.length) := by
  constructor
  · intro bufs hok i data hmem
    obtain ⟨plans, hp, hc⟩ := load_buffer_data_ok_inv hok
    obtain ⟨hplen, hpget⟩ := planBuffers_ok_shape hp
    obtain ⟨hclen, hcget⟩ := collectE_ok_get hc
    obtain ⟨j, hj⟩ := List.mem_iff_getElem?.mp hmem
    obtain ⟨hjlen, -⟩ := List.getElem?_eq_some.mp hj
    have hjp : j < plans.length := by omega
    obtain ⟨y, hy, hstep⟩ := hcget j plans[j] (List.getElem?_eq_getElem hjp)
    rw [hj] at hy
    cases hy
    obtain ⟨hidx, orig, hle, hdata⟩ := bufStep_ok_shape hstep
    obtain ⟨entry, hentry, hbidx, hblen⟩ :=
      hpget j plans[j] (List.getElem?_eq_getElem hjp)
    have hij : i = j := by omega
    subst hij
    have hpadlen : orig.length ≤ data.length := by
      rw [hdata]; exact pad4_length_le orig
    refine ⟨by rw [hdata]; exact pad4_length_mod orig,
      entry, hentry, by omega, orig, by omega, ?_⟩
    have hk : data.length - orig.length = (4 - orig.length % 4) % 4 := by
      rw [hdata]
      simp [pad4]
    rw [hk]
    simpa [pad4] using hdata
  · intro plans k p i bytes len hp hk hpre hr hshort
    have herr := bufStep_short hr hshort
    have hcol := collectE_first_error hk herr hpre
    obtain ⟨hidx, hlen⟩ := resolveBuffer_ok_fields hr
    obtain ⟨hplen, hpget⟩ := planBuffers_ok_shape hp
    obtain ⟨entry, hentry, hbidx, hblen⟩ := hpget k p hk
    refine ⟨?_, by omega, entry, hentry, by omega⟩
    simp only [load_buffer_data, hp]
    exact hcol

/-- C2 witness: the successful-run part on an inline buffer needing no
padding, and the short-buffer part on a relative buffer declaring nine
bytes when the loader answers five. -/
theorem c2_witness :
    (([5, 6, 7, 8] : Bytes).length % 4 = 0 ∧
      ∃ entry, (⟨[⟨.bin, 4⟩], []⟩ : Document).buffers[(0 : Nat)]? = some entry ∧
        entry.length ≤ ([5, 6, 7, 8] : Bytes).length ∧
        ∃ orig, entry.length ≤ orig.length ∧
          ([5, 6, 7, 8] : Bytes) =
            orig ++ List.replicate (([5, 6, 7, 8] : Bytes).length - orig.length) 0) ∧
    (load_buffer_data extTriv bundleOk docS (some "b") none =
        .error (.bufferLength 0 9 5) ∧
      (0 : Nat) = 0 ∧ ∃ entry, docS.buffers[(0 : Nat)]? = some entry ∧ 9 = entry.length) :=
  ⟨(c2_buffer_length_and_padding extTriv bundleTriv ⟨[⟨.bin, 4⟩], []⟩ none
      (some [5, 6, 7, 8])).1 [(0, [5, 6, 7, 8])] rfl 0 [5, 6, 7, 8]
      (by decide),
   (c2_buffer_length_and_padding extTriv bundleOk docS (some "b") none).2
      [.needsLoading 0 (.joined "b" "x.bin") 9] 0
      (.needsLoading 0 (.joined "b" "x.bin") 9) 0 [9, 9, 9, 9, 9] 9
      rfl (by decide)
      (fun j q hj _ => absurd hj (Nat.not_lt_zero j))
      rfl (by decide)⟩

/-- C7: planning the first `Bin`-sourced buffer consumes the supplied blob
(its bytes become that plan's data and the rest of the pass runs with no
blob); a second `Bin` claim, or any claim when no blob was supplied, fails
buffer planning with `MissingBlob`; and a blob no buffer claims leaves the
(successful) pass unchanged. -/
theorem c7_blob_consumption (ext : Ext) (base : Option String) (i : Nat) :
    (∀ pre l rest ps, planBuffers ext base pre i none = .ok ps →
      planBuffers ext base (pre ++ ⟨.bin, l⟩ :: rest) i none =
        .error .missingBlob) ∧
    (∀ pre mid l l2 rest ps qs data,
      hasBin pre = false →
      planBuffers ext base pre i (some data) = .ok ps →
      planBuffers ext base mid (i + pre.length + 1) none = .ok qs →
      planBuffers ext base (pre ++ ⟨.bin, l⟩ :: mid) i (some data) =
        .ok (ps ++ .loaded (i + pre.length) data l :: qs) ∧
      planBuffers ext base
          (pre ++ ⟨.bin, l⟩ :: (mid ++ ⟨.bin, l2⟩ :: rest)) i (some data) =
        .error .missingBlob) ∧
    (∀ entries data ps, hasBin entries = false →
      planBuffers ext base entries i none = .ok ps →
      planBuffers ext base entries i (some data) = .ok ps) := by
  refine ⟨?_, ?_, ?_⟩
  · intro pre l rest ps hps
    rw [planBuffers_append_ok (⟨.bin, l⟩ :: rest) hps]
    simp [planBuffers, Except.map]
  · intro pre mid l l2 rest ps qs data hnb hps hqs
    constructor
    · rw [planBuffers_append_ok (⟨.bin, l⟩ :: mid) hps]
      simp only [hnb, Bool.false_eq_true, if_false, planBuffers]
      rw [hqs]
      simp [Except.map]
    · rw [planBuffers_append_ok (⟨.bin, l⟩ :: (mid ++ ⟨.bin, l2⟩ :: rest)) hps]
      simp only [hnb, Bool.false_eq_true, if_false, planBuffers]
      rw [planBuffers_append_ok (⟨.bin, l2⟩ :: rest) hqs]
      simp [planBuffers, Except.map]
  · intro entries data ps hnb hps
    rw [planBuffers_blob_irrel hnb i (some data) none]
    exact hps

/-- C7 witness: the three parts at the empty head segments; the second
`Bin` claim and the blobless claim fail, the lone claim consumes the
blob's bytes. -/
theorem c7_witness :
    (planBuffers extTriv none ([] ++ ⟨.bin, 4⟩ :: []) 0 none =
      .error .missingBlob) ∧
    (planBuffers extTriv none ([] ++ ⟨.bin, 4⟩ :: []) 0 (some [5, 6, 7, 8]) =
        .ok ([] ++ .loaded (0 + ([] : List BufferEntry).length) [5, 6, 7, 8] 4 :: []) ∧
      planBuffers extTriv none
          ([] ++ ⟨.bin, 4⟩ :: ([] ++ ⟨.bin, 4⟩ :: [])) 0 (some [5, 6, 7, 8]) =
        .error .missingBlob) ∧
    (planBuffers extTriv none [] 0 (some [5, 6, 7, 8]) = .ok []) :=
  ⟨(c7_blob_consumption extTriv none 0).1 [] 4 [] [] rfl,
   (c7_blob_consumption extTriv none 0).2.1 [] [] 4 4 [] [] [] [5, 6, 7, 8]
     rfl rfl rfl,
   (c7_blob_consumption extTriv none 0).2.2 [] [5, 6, 7, 8] [] rfl rfl⟩

/-- C8: when the image phase is reached (buffers resolved, earlier images
planned) and an image entry is declared by URI while the caller supplied
no base directory, the import fails with
`ExternalReferenceInSliceImport`, and the completion callback receives
only that error — no partial model. -/
theorem c8_uri_image_without_base (ext : Ext) (bufBundle imgBundle : Bundle)
    (doc : Document) (blob : Option Bytes) (bufs : LoadedBuffers)
    (pre rest : List ImageSource) (u : String) (mt : Option String)
    (ps : List ImageImport)
    (hdoc : doc.images = pre ++ .uri u mt :: rest)
    (hbuf : load_buffer_data ext bufBundle doc none blob = .ok bufs)
    (hpre : planImages ext none bufs pre 0 = .ok ps) :
    importModel ext bufBundle imgBundle doc none blob =
      .err .externalReferenceInSliceImport ∧
    importTrace ext bufBundle imgBundle doc none blob =
      [.error .externalReferenceInSliceImport] := by
  have hplan : planImages ext none bufs doc.images 0 =
      .err .externalReferenceInSliceImport := by
    rw [hdoc, planImages_append_ok (.uri u mt :: rest) hpre]
    simp [planImages, POutcome.then]
  have himg : load_image_data ext imgBundle doc none bufs =
      .err .externalReferenceInSliceImport := by
    simp [load_image_data, hplan]
  exact ⟨by simp [importModel, hbuf, himg],
    by simp [importTrace, hbuf, himg]⟩

/-- C8 witness: a document with no buffers and one external-URL image,
imported with no base directory. -/
theorem c8_witness :
    importModel extTriv bundleTriv bundleTriv docU none none =
      .err .externalReferenceInSliceImport ∧
    importTrace extTriv bundleTriv bundleTriv docU none none =
      [.error .externalReferenceInSliceImport] :=
  c8_uri_image_without_base extTriv bundleTriv bundleTriv docU none [] []
    [] "https://a/b.png" none [] rfl rfl rfl

/-- C9: in each resolution phase, when the plan entry at position `k`
fails its resolution step and every earlier entry succeeds, the phase
delivers exactly that entry's error, and result construction
short-circuits — collecting the whole plan equals collecting only its
first `k + 1` entries. -/
theorem c9_first_failure_in_plan_order (ext : Ext) (bundle : Bundle)
    (doc : Document) (base : Option String) (blob : Option Bytes) :
    (∀ plans k p e, planBuffers ext base doc.buffers 0 blob = .ok plans →
      plans[k]? = some p → bufStep bundle p = .error e →
      (∀ j q, j < k → plans[j]? = some q → ∃ b, bufStep bundle q = .ok b) →
      load_buffer_data ext bundle doc base blob = .error e ∧
      collectE (bufStep bundle) plans =
        collectE (bufStep bundle) (plans.take (k + 1))) ∧
    (∀ bufs plans k p e, planImages ext base bufs doc.images 0 = .ok plans →
      plans[k]? = some p → imgStep ext bundle p = .error e →
      (∀ j q, j < k → plans[j]? = some q → ∃ b, imgStep ext bundle q = .ok b) →
      load_image_data ext bundle doc base bufs = .err e ∧
      collectE (imgStep ext bundle) plans =
        collectE (imgStep ext bundle) (plans.take (k + 1))) := by
  constructor
  · intro plans k p e hp hk hpe hpre
    refine ⟨?_, collectE_take hk hpe hpre⟩
    have hcol := collectE_first_error hk hpe hpre
    simp only [load_buffer_data, hp]
    exact hcol
  · intro bufs plans k p e hp hk hpe hpre
    refine ⟨?_, collectE_take hk hpe hpre⟩
    have hcol := collectE_first_error hk hpe hpre
    simp only [load_image_data, hp, hcol]

/-- C9 witness: two relative buffers where only the second fetch fails
(`MissingBlob` surfaces though the first resolved), and one external image
whose fetch fails. -/
theorem c9_witness :
    (load_buffer_data extTriv bundleSel docT (some "b") none =
        .error .missingBlob ∧
      collectE (bufStep bundleSel)
          [.needsLoading 0 (.joined "b" "x.bin") 0,
           .needsLoading 1 (.joined "b" "y.bin") 0] =
        collectE (bufStep bundleSel)
          ([.needsLoading 0 (.joined "b" "x.bin") 0,
            .needsLoading 1 (.joined "b" "y.bin") 0].take 2)) ∧
    (load_image_data extTriv bundleTriv docU (some "b") [] =
        .err .missingBlob ∧
      collectE (imgStep extTriv bundleTriv)
          [.needsLoading 0 (.str "https://a/b.png") none] =
        collectE (imgStep extTriv bundleTriv)
          ([.needsLoading 0 (.str "https://a/b.png") none].take 1)) := by
  constructor
  · refine (c9_first_failure_in_plan_order extTriv bundleSel docT
      (some "b") none).1
      [.needsLoading 0 (.joined "b" "x.bin") 0,
       .needsLoading 1 (.joined "b" "y.bin") 0]
      1 (.needsLoading 1 (.joined "b" "y.bin") 0) .missingBlob
      rfl (by decide) rfl ?_
    intro j q hj hq
    interval_cases j
    simp only [List.getElem?_cons_zero, Option.some.injEq] at hq
    subst hq
    exact ⟨(0, []), rfl⟩
  · refine (c9_first_failure_in_plan_order extTriv bundleTriv docU
      (some "b") none).2 []
      [.needsLoading 0 (.str "https://a/b.png") none]
      0 (.needsLoading 0 (.str "https://a/b.png") none) .missingBlob
      rfl (by decide) rfl ?_
    intro j q hj hq
    exact absurd hj (Nat.not_lt_zero j)

/-- C10: an image sourced from a buffer view whose byte range runs past
the referenced resolved buffer's bytes makes the image phase panic (the
slice indexing is partial) — it returns no error value for this case —
whereas a view naming a buffer index absent from the resolved map yields
the `MissingBlob` error. -/
theorem c10_view_slice_out_of_range (ext : Ext) (bundle : Bundle)
    (doc : Document) (base : Option String) (bufs : LoadedBuffers)
    (pre rest : List ImageSource) (b off len : Nat) (mt : String)
    (ps : List ImageImport)
    (hpre : planImages ext base bufs pre 0 = .ok ps) :
    (∀ parent, doc.images = pre ++ .view b off len mt :: rest →
      lookupBuf bufs b = some parent → parent.length < off + len →
      load_image_data ext bundle doc base bufs = .panic ∧
      ∀ e, load_image_data ext bundle doc base bufs ≠ .err e) ∧
    (doc.images = pre ++ .view b off len mt :: rest →
      lookupBuf bufs b = none →
      load_image_data ext bundle doc base bufs = .err .missingBlob) := by
  constructor
  · intro parent hdoc hlk hlt
    have hplan : planImages ext base bufs doc.images 0 = .panic := by
      rw [hdoc, planImages_append_ok (.view b off len mt :: rest) hpre]
      have hcond : ¬ (off + len ≤ parent.length) := by omega
      simp [planImages, hlk, hcond, POutcome.then]
    refine ⟨by simp [load_image_data, hplan], ?_⟩
    intro e
    simp [load_image_data, hplan]
  · intro hdoc hlk
    have hplan : planImages ext base bufs doc.images 0 = .err .missingBlob := by
      rw [hdoc, planImages_append_ok (.view b off len mt :: rest) hpre]
      simp [planImages, hlk, POutcome.then]
    simp [load_image_data, hplan]

/-- C10 witness: a view `[2, 7)` into a 4-byte resolved buffer panics and
yields no error; a view naming the absent index 1 yields `MissingBlob`. -/
theorem c10_witness :
    (load_image_data extTriv bundleTriv docP none [(0, [5, 6, 7, 8])] =
        .panic ∧
      ∀ e, load_image_data extTriv bundleTriv docP none [(0, [5, 6, 7, 8])] ≠
        .err e) ∧
    load_image_data extTriv bundleTriv docM none [(0, [5, 6, 7, 8])] =
      .err .missingBlob :=
  ⟨(c10_view_slice_out_of_range extTriv bundleTriv docP none
      [(0, [5, 6, 7, 8])] [] [] 0 2 5 "image/png" [] rfl).1
      [5, 6, 7, 8] rfl rfl (by decide),
   (c10_view_slice_out_of_range extTriv bundleTriv docM none
      [(0, [5, 6, 7, 8])] [] [] 1 0 2 "image/png" [] rfl).2 rfl rfl⟩

end GltfImport
